import Mathlib

/-!
# MCC code generator (`src/compile.c`)

A shallow embedding of `compile`, the tree-walking generator that turns a
sequence of symbol nodes into assembly text, together with the properties of
its per-kind templates, its sequencing and its termination.

`symbol.h` and `string.h` are not among the sources; the node type and the
fragment operations are modelled from the specification (§3, §4.2).

`compile` ends without a `return` statement. The embedding keeps apart what a
run builds in its local `assembly` and what a call site `compile(x)` then
reads, which the program as written leaves indeterminate.
-/

namespace MCC

/-! ## Data model -/

/-- Modelled from the spec: the `kind` tag of a symbol node (§3); the
enumeration of `symbol.h` is missing, the constructors are the case labels of
the `switch` in `compile`. -/
inductive SymbolType where
  | VARIABLE | STRING | VALUE | TYPE | DECLARE | ASSIGN
  | ADD | SUBTRACT | MULTIPLY | DIVIDE
  | FUNCTION | CALL | RETURN
  deriving DecidableEq

/-- Modelled from the spec: `struct Symbol*` (§3; `symbol.h` is missing). A
pointer is either `NULL` or the address of a node carrying `type`, `name` and
the owned pointers `lhs`, `rhs`, `next`. Trees are finite, unshared and
acyclic, which is what an inductive type gives. -/
inductive Symbol where
  | null : Symbol
  | node (type : SymbolType) (name : String) (lhs rhs next : Symbol) : Symbol
  deriving DecidableEq

/-- Modelled from the spec: the Assembly Fragment of §4.2 (`struct String` of
the missing `string.h`), an ordered sequence of text segments. -/
structure Fragment where
  segments : List String
  deriving DecidableEq

/-- A `struct String*`: `none` is the null pointer. -/
abbrev StringPtr := Option Fragment

/-- Modelled from the spec: concatenating all segments in order yields the
emitted assembly (§3). -/
def Fragment.content (f : Fragment) : String :=
  f.segments.foldr (fun s acc => s ++ acc) ""

/-- The text behind a fragment pointer; the null pointer holds no text. -/
def StringPtr.content : StringPtr → String
  | none => ""
  | some f => f.content

/-- Modelled from the spec: `newString(0)` is `empty()`, a fragment with no
content (§4.2). -/
def newString (_size : Nat) : Fragment := ⟨[]⟩

/-- Modelled from the spec: `getString(text)` is `fromLiteral(text)`, a
fragment whose single segment is `text` verbatim (§4.2). -/
def getString (text : String) : Fragment := ⟨[text]⟩

/-- Modelled from the spec: `addString(destination, source)` is `append`:
the destination's content becomes its prior content followed by the source's
content (§4.2). A null source has no content to append. -/
def addString (dest : Fragment) (source : StringPtr) : Fragment :=
  match source with
  | none => dest
  | some s => ⟨dest.segments ++ s.segments⟩

/-! ## Outcomes of a run -/

/-- What a bounded run of C code gives: a value, undefined behaviour, or no
answer within the budget. -/
inductive Outcome (α : Type) where
  | value (a : α) : Outcome α
  | undefined : Outcome α
  | outOfFuel : Outcome α
  deriving DecidableEq

/-- Sequencing: the first run that fails to give a value decides. -/
def Outcome.bind {α β : Type} (x : Outcome α) (f : α → Outcome β) : Outcome β :=
  match x with
  | .value a => f a
  | .undefined => .undefined
  | .outOfFuel => .outOfFuel

/-- Apply a function to the value of a run. -/
def Outcome.map {α β : Type} (f : α → β) (x : Outcome α) : Outcome β :=
  x.bind (fun a => .value (f a))

/-! ## `sprintf` into the 32-byte buffer -/

/-- An argument passed after the format string. -/
inductive PrintfArg where
  | str (s : String) : PrintfArg
  | uint (n : Nat) : PrintfArg
  deriving DecidableEq

/-- The `int` that `%i` reads from a 32-bit `unsigned int` argument. -/
def asInt32 (n : Nat) : Int :=
  if n % 2 ^ 32 < 2 ^ 31 then ((n % 2 ^ 32 : Nat) : Int)
  else ((n % 2 ^ 32 : Nat) : Int) - 2 ^ 32

/-- Expansion of a format string. `%s` takes a string argument, `%i` an
integer argument, `%%` is a percent sign. Every other conversion, among them
`%e` which takes a `double`, has no matching argument at the call sites of
`compile`: the behaviour is undefined (`none`). -/
def formatChars : List Char → List PrintfArg → Option (List Char)
  | [], _ => some []
  | '%' :: 's' :: rest, .str s :: args =>
      (formatChars rest args).map (fun out => s.toList ++ out)
  | '%' :: 'i' :: rest, .uint n :: args =>
      (formatChars rest args).map (fun out => (toString (asInt32 n)).toList ++ out)
  | '%' :: '%' :: rest, args =>
      (formatChars rest args).map (fun out => '%' :: out)
  | '%' :: _, _ => none
  | c :: rest, args => (formatChars rest args).map (fun out => c :: out)

/-- Size of `char buffer[32]`. -/
def bufferSize : Nat := 32

/-- Model of `sprintf(buffer, format, args...)`: the text left in `buffer`.
The text and its terminating NUL must fit in the 32 bytes of the buffer;
writing past it is undefined behaviour. -/
def sprintf (format : String) (args : List PrintfArg) : Outcome String :=
  match formatChars format.toList args with
  | none => .undefined
  | some out =>
      if (String.mk out).utf8ByteSize + 1 ≤ bufferSize then .value (String.mk out)
      else .undefined

/-! ## The generator -/

/-- The parameter loop of `case FUNCTION` (lines 110-121): for the node under
`parameter`, append `compile(parameter)`, format the store with
`4 * parameterIndex + 8` and append it, increment the index, advance to
`parameter->next`. `recur` is the recursive call of `compile`; the index is an
`unsigned int`. -/
def whileParameter (recur : Symbol → Outcome StringPtr) :
    Symbol → Nat → Fragment → Outcome Fragment
  | .null, _, current => .value current
  | .node type name lhs rhs next, parameterIndex, current =>
      (recur (.node type name lhs rhs next)).bind fun code =>
      (sprintf "\tmov %i(%ebp),(%eax)\n"
          [.uint ((4 * parameterIndex + 8) % 2 ^ 32)]).bind fun buffer =>
      whileParameter recur next ((parameterIndex + 1) % 2 ^ 32)
        (addString (addString current code) (some (getString buffer)))

/-- The instruction loop of `case FUNCTION` (lines 123-128): append
`compile(instruction)`, advance to `instruction->next`. -/
def whileInstruction (recur : Symbol → Outcome StringPtr) :
    Symbol → Fragment → Outcome Fragment
  | .null, current => .value current
  | .node type name lhs rhs next, current =>
      (recur (.node type name lhs rhs next)).bind fun code =>
      whileInstruction recur next (addString current code)

/-- The argument loop of `case CALL` (lines 136-146): while `argument` is not
null, compile it, append the push to `current`, append `current` to the
argument's code and make that the new `current`. The body never assigns
`argument`, so the next test sees the same pointer; `fuel` bounds the number
of iterations that are run. -/
def whileArgument (recur : Symbol → Outcome StringPtr) :
    Nat → Symbol → Fragment → Outcome Fragment
  | _, .null, current => .value current
  | 0, .node _ _ _ _ _, _ => .outOfFuel
  | fuel + 1, .node type name lhs rhs next, current =>
      (recur (.node type name lhs rhs next)).bind fun arg =>
      match arg with
      | none => .undefined
      | some arg =>
          whileArgument recur fuel (.node type name lhs rhs next)
            (addString arg (some (addString current (some (getString "\tpush %eax\n")))))

/-- The `switch` on `symbols->type` (lines 49-162): the fragment `current`
built for one node, starting from `newString(0)`. `recur` is the recursive
call of `compile`, `fuel` the iteration budget of the argument loop. -/
def compileSwitch (recur : Symbol → Outcome StringPtr) (fuel : Nat)
    (type : SymbolType) (name : String) (lhs rhs : Symbol) : Outcome Fragment :=
  let current := newString 0
  match type with
  | .VARIABLE => .value current
  | .STRING => .value current
  | .VALUE => .value current
  | .TYPE => .value current
  | .DECLARE => .value current
  | .ASSIGN => .value current
  | .ADD =>
      (recur rhs).bind fun r =>
      let current := addString current r
      let current := addString current (some (getString "\tmov %eax,%ecx\n"))
      (recur lhs).bind fun l =>
      let current := addString current l
      .value (addString current (some (getString "\tadd %ecx,%eax\n")))
  | .SUBTRACT =>
      (recur rhs).bind fun r =>
      let current := addString current r
      let current := addString current (some (getString "\tmov %eax,%ecx\n"))
      (recur lhs).bind fun l =>
      let current := addString current l
      .value (addString current (some (getString "\tsub %ecx,%eax\n")))
  | .MULTIPLY =>
      (recur rhs).bind fun r =>
      let current := addString current r
      let current := addString current (some (getString "\tmov %eax,%ecx\n"))
      (recur lhs).bind fun l =>
      let current := addString current l
      .value (addString current (some (getString "\timul %ecx,%eax\n")))
  | .DIVIDE =>
      (recur rhs).bind fun r =>
      let current := addString current r
      let current := addString current (some (getString "\tmov %eax,%ecx\n"))
      (recur lhs).bind fun l =>
      let current := addString current l
      let current := addString current (some (getString "\tmov $0,%edx\n"))
      .value (addString current (some (getString "\tidiv %ecx\n")))
  | .FUNCTION =>
      let current := addString current (some (getString "\t\n"))
      (sprintf "%s:\n" [.str name]).bind fun buffer =>
      let current := addString current (some (getString buffer))
      let current := addString current (some (getString "\tpush %ebp\n"))
      let current := addString current (some (getString "\tmov %esp,%ebp\n"))
      (whileParameter recur lhs 0 current).bind fun current =>
      whileInstruction recur rhs current
  | .CALL =>
      (whileArgument recur fuel rhs current).bind fun current =>
      (sprintf "\tcall %s\n" [.str name]).bind fun buffer =>
      .value (addString current (some (getString buffer)))
  | .RETURN =>
      match rhs with
      | .null =>
          let current := addString current (some (getString "\tmov %ebp,%esp\n"))
          let current := addString current (some (getString "\tpop %ebp\n"))
          .value (addString current (some (getString "\tret\n")))
      | .node t n l r x =>
          (recur (.node t n l r x)).bind fun e =>
          let current := addString current e
          let current := addString current (some (getString "\tmov %ebp,%esp\n"))
          let current := addString current (some (getString "\tpop %ebp\n"))
          .value (addString current (some (getString "\tret\n")))

/-- The `while (symbols != NULL)` loop of `compile` (lines 46-169) with its
local `assembly`: build `current` for the node, make it `assembly` when
`assembly` is null and append it otherwise, advance to `symbols->next`. -/
def whileSymbols (recur : Symbol → Outcome StringPtr) (fuel : Nat) :
    Symbol → StringPtr → Outcome StringPtr
  | .null, assembly => .value assembly
  | .node type name lhs rhs next, assembly =>
      (compileSwitch recur fuel type name lhs rhs).bind fun current =>
      match assembly with
      | none => whileSymbols recur fuel next (some current)
      | some a => whileSymbols recur fuel next (some (addString a (some current)))

/-- The value that a call site `compile(x)` reads once the call has finished.
The function ends at line 170 without a `return` statement, so this value is
indeterminate: it is what the build leaves in the result register, the null
pointer or some fragment. A hand-back gives it from the sequence `x` that was
passed and the `assembly` that the finished call had built; a statement for
every hand-back holds whatever the build does. -/
abbrev HandBack := Symbol → StringPtr → StringPtr

/-- The hand-back of a build that leaves the null pointer in the result
register. -/
def handBackNull : HandBack := fun _ _ => none

/-- The hand-back of a build in which the result register still holds
`assembly` when the function ends, as a final `return assembly;` would make
sure. -/
def handBackAssembly : HandBack := fun _ assembly => assembly

/-- A nested call `compile(x)` as its call site sees it: the run of the callee,
then the reading of the handed-back value. -/
def nestedCall (handBack : HandBack) (run : Symbol → Outcome StringPtr)
    (symbols : Symbol) : Outcome StringPtr :=
  (run symbols).map (handBack symbols)

/-- The function `compile` (lines 43-170): the final value of its local
`assembly`. `fuel` bounds the depth of nested calls (and the iterations of
the argument loop inside each call); a run that needs more gives `outOfFuel`.
The nested calls of the body are read through `handBack`. -/
def compile (handBack : HandBack) : Nat → Symbol → Outcome StringPtr
  | 0, _ => .outOfFuel
  | fuel + 1, symbols =>
      whileSymbols (nestedCall handBack (compile handBack fuel)) fuel symbols none

/-- The text built for a sequence: the content of the fragment that the run of
`compile` leaves in `assembly`. -/
def compileText (handBack : HandBack) (fuel : Nat) (symbols : Symbol) : Outcome String :=
  (compile handBack fuel symbols).map StringPtr.content

/-- The value that the C function hands back to its caller. Control reaches
the closing brace of `compile` (line 170) without meeting a `return`
statement, so a run that finishes hands back no value (`none`), whatever its
local `assembly` holds. -/
def compileReturned (handBack : HandBack) (fuel : Nat) (symbols : Symbol) :
    Outcome (Option StringPtr) :=
  (compile handBack fuel symbols).map fun _assembly => none

/-! ## Notions used in the statements -/

/-- The nodes of a sibling sequence in list order, each taken alone (its
`next` cleared). -/
def Symbol.singles : Symbol → List Symbol
  | .null => []
  | .node type name lhs rhs next => .node type name lhs rhs .null :: next.singles

/-- Run the generation of each text in turn and concatenate the results in
list order. -/
def concatText : List (Outcome String) → Outcome String
  | [] => .value ""
  | x :: xs => x.bind fun h => (concatText xs).bind fun t => .value (h ++ t)

/-- The call `recur2` agrees with `recur1` wherever `recur1` finishes. -/
def Extends (recur1 recur2 : Symbol → Outcome StringPtr) : Prop :=
  ∀ s, recur1 s ≠ .outOfFuel → recur2 s = recur1 s

/-- No CALL node of the tree has an argument (a non-null `rhs`). -/
def Symbol.noArguments : Symbol → Bool
  | .null => true
  | .node type _ lhs rhs next =>
      (decide (type = .CALL → rhs = .null)) && lhs.noArguments && rhs.noArguments
        && next.noArguments

/-- The sequences that start at the nodes of a sibling sequence. -/
def Symbol.tails : Symbol → List Symbol
  | .null => []
  | .node type name lhs rhs next => .node type name lhs rhs next :: next.tails

/-- The lines that a binary operator case appends after the code of its left
operand: the operator line, preceded for DIVIDE by the line zeroing `%edx`
(lines 73, 80, 87, 94-95). -/
def operatorLines : SymbolType → Option String
  | .ADD => some "\tadd %ecx,%eax\n"
  | .SUBTRACT => some "\tsub %ecx,%eax\n"
  | .MULTIPLY => some "\timul %ecx,%eax\n"
  | .DIVIDE => some ("\tmov $0,%edx\n" ++ "\tidiv %ecx\n")
  | _ => none

/-! ## Fragments and outcomes: basic facts -/

theorem foldr_append_text (l : List String) (t : String) :
    l.foldr (fun s acc => s ++ acc) t = l.foldr (fun s acc => s ++ acc) "" ++ t := by
  induction l with
  | nil => simp
  | cons s l ih => simp only [List.foldr_cons]; rw [ih, String.append_assoc]

@[simp] theorem content_newString (n : Nat) : (newString n).content = "" := rfl

@[simp] theorem content_getString (t : String) : (getString t).content = t := by
  simp [getString, Fragment.content]

@[simp] theorem content_addString (d : Fragment) (s : StringPtr) :
    (addString d s).content = d.content ++ StringPtr.content s := by
  cases s with
  | none => simp [addString, StringPtr.content]
  | some f =>
      simp only [addString, StringPtr.content, Fragment.content, List.foldr_append]
      exact foldr_append_text _ _

@[simp] theorem content_some (f : Fragment) : StringPtr.content (some f) = f.content := rfl

@[simp] theorem content_none : StringPtr.content none = "" := rfl

@[simp] theorem Outcome.value_bind {α β : Type} (a : α) (f : α → Outcome β) :
    (Outcome.value a).bind f = f a := rfl

@[simp] theorem Outcome.undefined_bind {α β : Type} (f : α → Outcome β) :
    (Outcome.undefined : Outcome α).bind f = .undefined := rfl

@[simp] theorem Outcome.outOfFuel_bind {α β : Type} (f : α → Outcome β) :
    (Outcome.outOfFuel : Outcome α).bind f = .outOfFuel := rfl

@[simp] theorem Outcome.map_value {α β : Type} (f : α → β) (a : α) :
    (Outcome.value a).map f = .value (f a) := rfl

@[simp] theorem Outcome.map_undefined {α β : Type} (f : α → β) :
    (Outcome.undefined : Outcome α).map f = .undefined := rfl

@[simp] theorem Outcome.map_outOfFuel {α β : Type} (f : α → β) :
    (Outcome.outOfFuel : Outcome α).map f = .outOfFuel := rfl

theorem Outcome.map_bind {α β γ : Type} (x : Outcome α) (f : α → Outcome β) (g : β → γ) :
    (x.bind f).map g = x.bind (fun a => (f a).map g) := by
  cases x <;> rfl

theorem Outcome.bind_map {α β γ : Type} (x : Outcome α) (f : α → β) (g : β → Outcome γ) :
    (x.map f).bind g = x.bind (fun a => g (f a)) := by
  cases x <;> rfl


/-- One node without a following sibling: the run leaves in `assembly` the
fragment that the `switch` built for it. -/
theorem compile_single (handBack : HandBack) (fuel : Nat) (type : SymbolType)
    (name : String) (lhs rhs : Symbol) :
    compile handBack (fuel + 1) (.node type name lhs rhs .null) =
      (compileSwitch (nestedCall handBack (compile handBack fuel)) fuel type name lhs rhs).map
        some := by
  simp only [compile, whileSymbols, Outcome.map]

theorem Outcome.bind_eq_value {α β : Type} {x : Outcome α} {f : α → Outcome β} {b : β}
    (h : x.bind f = .value b) : ∃ a, x = .value a ∧ f a = .value b := by
  cases x with
  | value a => exact ⟨a, rfl, h⟩
  | undefined => cases h
  | outOfFuel => cases h

/-! ## RETURN without operand -/

/-- C7: a RETURN node without operand and without a following sibling
generates exactly the three epilogue lines, in this order, for every name and
every `lhs`; no nested call is made, so this holds whatever a call site would
read. -/
theorem compile_return_no_operand (handBack : HandBack) (fuel : Nat) (name : String)
    (lhs : Symbol) :
    compileText handBack (fuel + 1) (.node .RETURN name lhs .null .null) =
      .value ("\tmov %ebp,%esp\n" ++ "\tpop %ebp\n" ++ "\tret\n") := by
  simp only [compileText, compile_single, compileSwitch]
  simp

/-! ## Sequences -/

/-- The loop started with some `assembly` gives the text of `assembly`
followed by the text of the loop started with a null `assembly`. -/
theorem whileSymbols_content (recur : Symbol → Outcome StringPtr) (fuel : Nat)
    (symbols : Symbol) (assembly : StringPtr) :
    (whileSymbols recur fuel symbols assembly).map StringPtr.content =
      ((whileSymbols recur fuel symbols none).map StringPtr.content).map
        (fun t => StringPtr.content assembly ++ t) := by
  induction symbols generalizing assembly with
  | null => simp [whileSymbols]
  | node type name lhs rhs next _ _ ih =>
      simp only [whileSymbols, Outcome.map_bind]
      cases compileSwitch recur fuel type name lhs rhs with
      | undefined => rfl
      | outOfFuel => rfl
      | value current =>
          simp only [Outcome.value_bind]
          cases assembly with
          | none =>
              simp only []
              rw [ih (some current)]
              cases (whileSymbols recur fuel next none).map StringPtr.content <;> simp
          | some a =>
              simp only []
              rw [ih (some (addString a (some current))), ih (some current)]
              cases (whileSymbols recur fuel next none).map StringPtr.content <;>
                simp [String.append_assoc]

/-- The text of a non-empty sequence, as the text of its head alone followed
by the text of its tail. -/
theorem compileText_cons (handBack : HandBack) (fuel : Nat) (type : SymbolType)
    (name : String) (lhs rhs next : Symbol) :
    compileText handBack fuel (.node type name lhs rhs next) =
      (compileText handBack fuel (.node type name lhs rhs .null)).bind fun head =>
      (compileText handBack fuel next).bind fun tail => .value (head ++ tail) := by
  cases fuel with
  | zero => rfl
  | succ fuel =>
      simp only [compileText, compile_single]
      simp only [compile]
      rw [whileSymbols]
      simp only [Outcome.map_bind]
      cases compileSwitch (nestedCall handBack (compile handBack fuel)) fuel type name lhs rhs with
      | undefined => rfl
      | outOfFuel => rfl
      | value current =>
          simp only [Outcome.value_bind, Outcome.map_value, content_some]
          rw [whileSymbols_content]
          cases (whileSymbols (nestedCall handBack (compile handBack fuel)) fuel next none).map
            StringPtr.content <;> simp

/-- C9: the text of a non-empty sequence with head `n` and tail `t` is the
text of `n` alone (its `next` cleared) followed by the text of `t`; hence the
text of a sequence is the concatenation, in list order, of the texts of its
nodes taken alone, each node once. The outer loop makes no nested call of its
own, so this holds whatever a call site reads. -/
theorem compile_sequence (handBack : HandBack) (fuel : Nat) :
    (∀ (type : SymbolType) (name : String) (lhs rhs next : Symbol),
      compileText handBack fuel (.node type name lhs rhs next) =
        (compileText handBack fuel (.node type name lhs rhs .null)).bind fun head =>
        (compileText handBack fuel next).bind fun tail => .value (head ++ tail)) ∧
    (∀ symbols : Symbol,
      compileText handBack (fuel + 1) symbols =
        concatText (symbols.singles.map (compileText handBack (fuel + 1)))) := by
  refine ⟨compileText_cons handBack fuel, ?_⟩
  intro symbols
  induction symbols with
  | null => rfl
  | node type name lhs rhs next _ _ ih =>
      rw [compileText_cons, ih]
      rfl

/-! ## Placeholder kinds -/

/-- C11: a node of kind VARIABLE, STRING, VALUE, TYPE, DECLARE or ASSIGN
without a following sibling generates the empty text, whatever its name and
its `lhs` and `rhs` subtrees are; no nested call is made on them. -/
theorem compile_placeholder (handBack : HandBack) (fuel : Nat) (name : String)
    (lhs rhs : Symbol) :
    compileText handBack (fuel + 1) (.node .VARIABLE name lhs rhs .null) = .value "" ∧
    compileText handBack (fuel + 1) (.node .STRING name lhs rhs .null) = .value "" ∧
    compileText handBack (fuel + 1) (.node .VALUE name lhs rhs .null) = .value "" ∧
    compileText handBack (fuel + 1) (.node .TYPE name lhs rhs .null) = .value "" ∧
    compileText handBack (fuel + 1) (.node .DECLARE name lhs rhs .null) = .value "" ∧
    compileText handBack (fuel + 1) (.node .ASSIGN name lhs rhs .null) = .value "" := by
  simp [compileText, compile_single, compileSwitch]

/-! ## CALL: the argument loop -/

/-- On a non-null argument the loop of `case CALL` gives no value, whatever
the budget: its test never changes. -/
theorem whileArgument_ne_value (recur : Symbol → Outcome StringPtr) (fuel : Nat)
    (t : SymbolType) (n : String) (l r x : Symbol) (current result : Fragment) :
    whileArgument recur fuel (.node t n l r x) current ≠ .value result := by
  induction fuel generalizing current with
  | zero => simp [whileArgument]
  | succ fuel ih =>
      simp only [whileArgument]
      cases recur (.node t n l r x) with
      | undefined => simp
      | outOfFuel => simp
      | value arg =>
          cases arg with
          | none => simp
          | some arg => simpa using ih _

/-- When the call on the argument runs out of budget or gives a fragment, the
loop of `case CALL` exhausts every budget. -/
theorem whileArgument_outOfFuel (recur : Symbol → Outcome StringPtr)
    (t : SymbolType) (n : String) (l r x : Symbol)
    (h : recur (.node t n l r x) = .outOfFuel ∨ ∃ a, recur (.node t n l r x) = .value (some a))
    (fuel : Nat) (current : Fragment) :
    whileArgument recur fuel (.node t n l r x) current = .outOfFuel := by
  induction fuel generalizing current with
  | zero => rfl
  | succ fuel ih =>
      simp only [whileArgument]
      rcases h with h | ⟨a, h⟩
      · rw [h]; rfl
      · rw [h]; simpa using ih _

/-- A CALL node with a non-empty argument sequence gives no value, whatever
follows it, whatever the budget and whatever the call sites read. -/
theorem compile_call_args_ne_value (handBack : HandBack) (fuel : Nat) (name : String)
    (lhs : Symbol) (t : SymbolType) (n : String) (l r x next : Symbol) (result : StringPtr) :
    compile handBack fuel (.node .CALL name lhs (.node t n l r x) next) ≠ .value result := by
  cases fuel with
  | zero => simp [compile]
  | succ fuel =>
      intro h
      simp only [compile, whileSymbols, compileSwitch] at h
      obtain ⟨_, h1, _⟩ := Outcome.bind_eq_value h
      obtain ⟨c, h2, _⟩ := Outcome.bind_eq_value h1
      exact whileArgument_ne_value _ _ _ _ _ _ _ _ _ h2

/-- A placeholder node taken alone leaves the empty fragment in `assembly`. -/
theorem compile_value_leaf (handBack : HandBack) (fuel : Nat) (name : String)
    (lhs rhs : Symbol) :
    compile handBack (fuel + 1) (.node .VALUE name lhs rhs .null)
      = .value (some (newString 0)) := by
  simp [compile_single, compileSwitch]

/-- C4: for a CALL node whose argument sequence is not empty, `compile` gives
no result at any budget, whatever its call sites read (so no pushes and no
call line are produced); on the sequence `[x, y, z]` of three VALUE nodes,
with the argument's fragment handed back to the loop, every budget is
exhausted. -/
theorem compile_call_arguments_no_result :
    (∀ (handBack : HandBack) (fuel : Nat) (name : String) (lhs : Symbol) (t : SymbolType)
        (n : String) (l r x next : Symbol) (result : StringPtr),
      compile handBack fuel (.node .CALL name lhs (.node t n l r x) next) ≠ .value result) ∧
    (∀ fuel : Nat,
      compile handBackAssembly fuel (.node .CALL "f" .null
        (.node .VALUE "x" .null .null
          (.node .VALUE "y" .null .null
            (.node .VALUE "z" .null .null .null))) .null) = .outOfFuel) := by
  refine ⟨compile_call_args_ne_value, ?_⟩
  intro fuel
  cases fuel with
  | zero => rfl
  | succ fuel =>
      simp only [compile, whileSymbols, compileSwitch]
      rw [whileArgument_outOfFuel]
      · rfl
      · cases fuel with
        | zero => exact Or.inl rfl
        | succ fuel => exact Or.inr ⟨_, rfl⟩

/-- C6: `compile` does not halt with a fragment on every finite tree: on the
CALL node `f` with the single VALUE argument `x` no budget gives a result,
whatever the call sites read; when the loop reads the argument's fragment, or
any other fragment, every budget is exhausted. -/
theorem compile_call_one_argument_diverges :
    (∀ (handBack : HandBack) (fuel : Nat) (result : StringPtr),
      compile handBack fuel
        (.node .CALL "f" .null (.node .VALUE "x" .null .null .null) .null) ≠ .value result) ∧
    (∀ fuel : Nat,
      compile handBackAssembly fuel
        (.node .CALL "f" .null (.node .VALUE "x" .null .null .null) .null) = .outOfFuel) ∧
    (∀ (unrelated : Fragment) (fuel : Nat),
      compile (fun _ _ => some unrelated) fuel
        (.node .CALL "f" .null (.node .VALUE "x" .null .null .null) .null) = .outOfFuel) := by
  refine ⟨fun handBack fuel result => compile_call_args_ne_value _ _ _ _ _ _ _ _ _ _ _, ?_, ?_⟩
  · intro fuel
    cases fuel with
    | zero => rfl
    | succ fuel =>
        simp only [compile, whileSymbols, compileSwitch]
        rw [whileArgument_outOfFuel]
        · rfl
        · cases fuel with
          | zero => exact Or.inl rfl
          | succ fuel => exact Or.inr ⟨_, rfl⟩
  · intro unrelated fuel
    cases fuel with
    | zero => rfl
    | succ fuel =>
        simp only [compile, whileSymbols, compileSwitch]
        rw [whileArgument_outOfFuel]
        · rfl
        · cases fuel with
          | zero => exact Or.inl rfl
          | succ fuel => exact Or.inr ⟨_, rfl⟩

/-! ## The formatting buffer -/

/-- The label `"%s:\n"` fits the buffer when the name has at most 29 bytes,
and is then the name followed by a colon and a newline. -/
theorem sprintf_label (name : String) (h : name.utf8ByteSize ≤ 29) :
    sprintf "%s:\n" [.str name] = .value (name ++ ":\n") := by
  have hf : formatChars "%s:\n".toList [.str name] = some (name.toList ++ ":\n".toList) := rfl
  have hm : String.mk (name.toList ++ ":\n".toList) = name ++ ":\n" := rfl
  have hs : (name ++ ":\n").utf8ByteSize = name.utf8ByteSize + 2 := by
    rw [← hm]
    simp only [String.utf8ByteSize_mk, String.utf8Len_append]
    rfl
  simp only [sprintf, hf, hm, hs, bufferSize]
  rw [if_pos (by omega)]

/-- The format of the parameter store contains the conversion `%e` twice
(in `%ebp` and in `%eax`) and the call passes one integer only. -/
theorem sprintf_store (k : Nat) :
    sprintf "\tmov %i(%ebp),(%eax)\n" [.uint k] = .undefined := rfl

theorem utf8ByteSize_label (name : String) :
    (name ++ ":\n").utf8ByteSize = name.utf8ByteSize + 2 := by
  have hm : String.mk (name.toList ++ ":\n".toList) = name ++ ":\n" := rfl
  rw [← hm]
  simp only [String.utf8ByteSize_mk, String.utf8Len_append]
  rfl

theorem utf8ByteSize_call (name : String) :
    ("\tcall " ++ name ++ "\n").utf8ByteSize = name.utf8ByteSize + 7 := by
  have hm : String.mk ("\tcall ".toList ++ (name.toList ++ "\n".toList))
      = "\tcall " ++ name ++ "\n" := by
    rw [String.append_assoc]; rfl
  rw [← hm]
  simp only [String.utf8ByteSize_mk, String.utf8Len_append]
  have h1 : String.utf8Len "\tcall ".toList = 6 := rfl
  have h2 : String.utf8Len "\n".toList = 1 := rfl
  have h3 : String.utf8Len name.toList = name.utf8ByteSize := rfl
  omega

/-- What `sprintf` leaves for the label, by the size of the name. -/
theorem sprintf_label_eq (name : String) :
    sprintf "%s:\n" [.str name] =
      (if name.utf8ByteSize ≤ 29 then .value (name ++ ":\n") else .undefined) := by
  have hl := utf8ByteSize_label name
  have hf : formatChars "%s:\n".toList [.str name] = some (name.toList ++ ":\n".toList) := rfl
  have hm : String.mk (name.toList ++ ":\n".toList) = name ++ ":\n" := rfl
  simp only [sprintf, hf, hm, hl, bufferSize]
  by_cases h : name.utf8ByteSize ≤ 29
  · rw [if_pos h, if_pos (by omega)]
  · rw [if_neg h, if_neg (by omega)]

/-- What `sprintf` leaves for the call line, by the size of the name. -/
theorem sprintf_call_eq (name : String) :
    sprintf "\tcall %s\n" [.str name] =
      (if name.utf8ByteSize ≤ 24 then .value ("\tcall " ++ name ++ "\n") else .undefined) := by
  have hc := utf8ByteSize_call name
  have hf : formatChars "\tcall %s\n".toList [.str name]
      = some ("\tcall ".toList ++ (name.toList ++ "\n".toList)) := rfl
  have hm : String.mk ("\tcall ".toList ++ (name.toList ++ "\n".toList))
      = "\tcall " ++ name ++ "\n" := by
    rw [String.append_assoc]; rfl
  simp only [sprintf, hf, hm, hc, bufferSize]
  by_cases h : name.utf8ByteSize ≤ 24
  · rw [if_pos h, if_pos (by omega)]
  · rw [if_neg h, if_neg (by omega)]

/-- The call line `"\tcall %s\n"` fits the buffer when the name has at most 24
bytes, and is then the name between `"\tcall "` and a newline. -/
theorem sprintf_call (name : String) (h : name.utf8ByteSize ≤ 24) :
    sprintf "\tcall %s\n" [.str name] = .value ("\tcall " ++ name ++ "\n") := by
  rw [sprintf_call_eq, if_pos h]

/-- A text that `sprintf` left for the label is the name, a colon and a
newline. -/
theorem sprintf_label_value {name buffer : String}
    (h : sprintf "%s:\n" [.str name] = .value buffer) : buffer = name ++ ":\n" := by
  rw [sprintf_label_eq] at h
  split at h
  · simp only [Outcome.value.injEq] at h; exact h.symm
  · cases h

/-- A text that `sprintf` left for the call line is the name between
`"\tcall "` and a newline. -/
theorem sprintf_call_value {name buffer : String}
    (h : sprintf "\tcall %s\n" [.str name] = .value buffer) :
    buffer = "\tcall " ++ name ++ "\n" := by
  rw [sprintf_call_eq] at h
  split at h
  · simp only [Outcome.value.injEq] at h; exact h.symm
  · cases h

/-- C19: the label `"<name>:\n"` with its terminating NUL fits the 32-byte
buffer exactly when the name has at most 29 bytes, the call line
`"\tcall <name>\n"` exactly when it has at most 24; `sprintf` leaves the text
in the buffer in these cases and writes past the buffer for longer names. -/
theorem buffer_bound (name : String) :
    ((name ++ ":\n").utf8ByteSize + 1 ≤ bufferSize ↔ name.utf8ByteSize ≤ 29) ∧
    (("\tcall " ++ name ++ "\n").utf8ByteSize + 1 ≤ bufferSize ↔ name.utf8ByteSize ≤ 24) ∧
    sprintf "%s:\n" [.str name] =
      (if name.utf8ByteSize ≤ 29 then .value (name ++ ":\n") else .undefined) ∧
    sprintf "\tcall %s\n" [.str name] =
      (if name.utf8ByteSize ≤ 24 then .value ("\tcall " ++ name ++ "\n") else .undefined) := by
  have hl := utf8ByteSize_label name
  have hc := utf8ByteSize_call name
  exact ⟨by rw [hl, bufferSize]; omega, by rw [hc, bufferSize]; omega,
    sprintf_label_eq name, sprintf_call_eq name⟩

/-! ## FUNCTION: the parameter store -/

/-- With a parameter present the parameter loop gives no value. -/
theorem whileParameter_ne_value (recur : Symbol → Outcome StringPtr)
    (t : SymbolType) (n : String) (l r x : Symbol) (index : Nat) (current result : Fragment) :
    whileParameter recur (.node t n l r x) index current ≠ .value result := by
  simp only [whileParameter, sprintf_store]
  cases recur (.node t n l r x) <;> simp

/-- A FUNCTION node with a non-empty parameter sequence gives no value,
whatever its body, whatever follows it, whatever the budget and whatever the
call sites read. -/
theorem compile_function_params_ne_value (handBack : HandBack) (fuel : Nat) (name : String)
    (t : SymbolType) (n : String) (l r x rhs next : Symbol) (result : StringPtr) :
    compile handBack fuel (.node .FUNCTION name (.node t n l r x) rhs next) ≠ .value result := by
  cases fuel with
  | zero => simp [compile]
  | succ fuel =>
      intro h
      simp only [compile, whileSymbols, compileSwitch] at h
      obtain ⟨_, h1, _⟩ := Outcome.bind_eq_value h
      obtain ⟨_, _, h2⟩ := Outcome.bind_eq_value h1
      obtain ⟨_, h3, _⟩ := Outcome.bind_eq_value h2
      exact whileParameter_ne_value _ _ _ _ _ _ _ _ _ h3

/-- A FUNCTION node named within the bound of the buffer whose first parameter
is a placeholder taken alone ends in undefined behaviour at the first store,
whatever the call sites read. -/
theorem compile_function_declare_undefined (handBack : HandBack) (fuel : Nat) (f : String)
    (h : f.utf8ByteSize ≤ 29) (n : String) (l r rhs : Symbol) :
    compileText handBack (fuel + 2)
      (.node .FUNCTION f (.node .DECLARE n l r .null) rhs .null) = .undefined := by
  simp only [compileText, compile_single, compileSwitch, sprintf_label f h, whileParameter,
    sprintf_store, nestedCall]
  simp

/-- C13: no parameter store is generated: the format `"\tmov %i(%ebp),(%eax)\n"`
holds the conversion `%e` twice and the call passes one integer, so
formatting the store is undefined behaviour at every index, and the function `f`
with the one DECLARE parameter `p0` and an empty body has no text at any
budget, whatever the call sites read. -/
theorem compile_function_parameter_store_undefined :
    (∀ parameterIndex : Nat,
      sprintf "\tmov %i(%ebp),(%eax)\n" [.uint ((4 * parameterIndex + 8) % 2 ^ 32)]
        = .undefined) ∧
    (∀ handBack : HandBack,
      compileText handBack 2
        (.node .FUNCTION "f" (.node .DECLARE "p0" .null .null .null) .null .null)
        = .undefined) ∧
    ¬ ∃ (handBack : HandBack) (fuel : Nat) (text : String),
      compileText handBack fuel
        (.node .FUNCTION "f" (.node .DECLARE "p0" .null .null .null) .null .null)
        = .value text := by
  refine ⟨fun _ => rfl,
    fun handBack => compile_function_declare_undefined handBack 0 "f" (by decide) _ _ _ _, ?_⟩
  rintro ⟨handBack, fuel, text, h⟩
  obtain ⟨a, ha, _⟩ := Outcome.bind_eq_value h
  exact compile_function_params_ne_value _ _ _ _ _ _ _ _ _ _ _ ha

/-! ## The value handed back -/

/-- C12: `compile` hands back no value: on the RETURN node without operand the
loop leaves in `assembly` a fragment holding the three epilogue lines, and the
function ends without returning it; the same holds on every input. -/
theorem compile_hands_back_nothing :
    (∀ handBack : HandBack, ∃ assembly : Fragment,
      compile handBack 1 (.node .RETURN "" .null .null .null) = .value (some assembly) ∧
      assembly.content = "\tmov %ebp,%esp\n" ++ "\tpop %ebp\n" ++ "\tret\n") ∧
    (∀ handBack : HandBack,
      compileReturned handBack 1 (.node .RETURN "" .null .null .null) = .value none) ∧
    (∀ (handBack : HandBack) (fuel : Nat) (symbols : Symbol) (s : StringPtr),
      compileReturned handBack fuel symbols ≠ .value (some s)) := by
  refine ⟨fun _ => ⟨_, rfl, by decide⟩, fun _ => rfl, ?_⟩
  intro handBack fuel symbols s h
  unfold compileReturned at h
  cases hc : compile handBack fuel symbols <;> rw [hc] at h <;> cases h

/-! ## CALL without arguments -/

/-- C14 (as amended): a CALL node named `f` of at most 24 bytes, with an empty
argument sequence and without a following sibling, generates exactly the line
`"\tcall f\n"`: no push before it, nothing after it. -/
theorem compile_call_no_arguments (handBack : HandBack) (fuel : Nat) (f : String)
    (h : f.utf8ByteSize ≤ 24) (lhs : Symbol) :
    compileText handBack (fuel + 1) (.node .CALL f lhs .null .null) =
      .value ("\tcall " ++ f ++ "\n") := by
  simp only [compileText, compile_single, compileSwitch]
  cases fuel <;> simp [whileArgument, sprintf_call f h]

/-- Witness of C14 (as amended): the call of `f`. -/
theorem compile_call_no_arguments_witness :
    "f".utf8ByteSize ≤ 24 ∧
    compileText handBackNull 1 (.node .CALL "f" .null .null .null)
      = .value ("\tcall " ++ "f" ++ "\n") :=
  ⟨by decide, compile_call_no_arguments handBackNull 0 "f" (by decide) .null⟩

/-- C14 (as stated) fails: with a name of 25 bytes the call line and its NUL
take 33 bytes, `sprintf` writes past the 32-byte buffer and no budget gives a
text. -/
theorem compile_call_long_name_fails :
    compileText handBackNull 1
      (.node .CALL "abcdefghijklmnopqrstuvwxy" .null .null .null) = .undefined ∧
    ¬ ∃ (handBack : HandBack) (fuel : Nat) (text : String),
      compileText handBack fuel (.node .CALL "abcdefghijklmnopqrstuvwxy" .null .null .null)
        = .value text := by
  refine ⟨by decide, ?_⟩
  rintro ⟨handBack, fuel, text, h⟩
  cases fuel with
  | zero => cases h
  | succ fuel =>
      have hs : sprintf "\tcall %s\n" [.str "abcdefghijklmnopqrstuvwxy"] = .undefined := by
        decide
      simp only [compileText, compile_single, compileSwitch] at h
      cases fuel <;> simp [whileArgument, hs] at h

/-! ## The null sequence -/

/-- C10 (as amended): on the null sequence the loop body never runs: at every
positive budget `compile` ends with `assembly` still null; no fragment is
created and no text is emitted. -/
theorem compile_null (handBack : HandBack) (fuel : Nat) :
    compile handBack (fuel + 1) .null = .value none :=
  rfl

/-- C10 (as stated) fails: on the null sequence no run of `compile` builds a
fragment, empty or not; what it leaves in `assembly` is the null pointer, and
nothing is handed back. -/
theorem compile_null_builds_no_fragment :
    (¬ ∃ (handBack : HandBack) (fuel : Nat) (fragment : Fragment),
      compile handBack fuel .null = .value (some fragment)) ∧
    compile handBackNull 1 .null ≠ .value (some (newString 0)) ∧
    compileReturned handBackNull 1 .null = .value none := by
  refine ⟨?_, by decide, rfl⟩
  rintro ⟨handBack, fuel, fragment, h⟩
  cases fuel with
  | zero => cases h
  | succ fuel => cases h

/-! ## Nested calls: what the call sites weave in -/

/-- The text built by a binary operator case: what the call on `rhs` handed
back, the move into the scratch register, what the call on `lhs` handed back,
then the lines of the operator. -/
theorem compileText_operator (handBack : HandBack) (fuel : Nat) (type : SymbolType)
    (lines : String) (h : operatorLines type = some lines) (name : String) (a b : Symbol) :
    compileText handBack (fuel + 1) (.node type name a b .null) =
      (compile handBack fuel b).bind fun builtB =>
      (compile handBack fuel a).bind fun builtA =>
      .value (StringPtr.content (handBack b builtB) ++ "\tmov %eax,%ecx\n"
        ++ StringPtr.content (handBack a builtA) ++ lines) := by
  cases type <;> simp only [operatorLines, Option.some.injEq] at h
  case ADD | SUBTRACT | MULTIPLY | DIVIDE =>
    subst h
    simp only [compileText, compile_single, compileSwitch, nestedCall]
    cases compile handBack fuel b <;> simp
    cases compile handBack fuel a <;> simp [String.append_assoc]
  all_goals cases h

/-- C1: the code of the operands of an ADD node does not reach its text: the
two operand slots hold what the nested calls hand back, which `compile`, ending
without `return`, leaves indeterminate. For the sum of the calls of `a` and
`b`, each of which builds its call line, a build that reads the null pointer
gives the move and the add alone. -/
theorem compile_add_operands_not_returned :
    (∀ (handBack : HandBack) (fuel : Nat) (name : String) (a b : Symbol),
      compileText handBack (fuel + 1) (.node .ADD name a b .null) =
        (compile handBack fuel b).bind fun builtB =>
        (compile handBack fuel a).bind fun builtA =>
        .value (StringPtr.content (handBack b builtB) ++ "\tmov %eax,%ecx\n"
          ++ StringPtr.content (handBack a builtA) ++ "\tadd %ecx,%eax\n")) ∧
    compileText handBackNull 1 (.node .CALL "b" .null .null .null) = .value "\tcall b\n" ∧
    compileText handBackNull 1 (.node .CALL "a" .null .null .null) = .value "\tcall a\n" ∧
    compileText handBackNull 2 (.node .ADD "" (.node .CALL "a" .null .null .null)
        (.node .CALL "b" .null .null .null) .null)
      = .value ("\tmov %eax,%ecx\n" ++ "\tadd %ecx,%eax\n") := by
  refine ⟨fun handBack fuel name a b =>
    compileText_operator handBack fuel .ADD _ rfl name a b, by decide, by decide, by decide⟩

/-- C2: the code of the operands of a SUBTRACT node and of a MULTIPLY node does
not reach their text: the operand slots hold what the nested calls hand back,
which is indeterminate. For the calls of `a` and `b` as operands, a build that
reads the null pointer gives the move and the operator line alone. -/
theorem compile_subtract_multiply_operands_not_returned :
    (∀ (handBack : HandBack) (fuel : Nat) (name : String) (a b : Symbol),
      compileText handBack (fuel + 1) (.node .SUBTRACT name a b .null) =
          ((compile handBack fuel b).bind fun builtB =>
           (compile handBack fuel a).bind fun builtA =>
           .value (StringPtr.content (handBack b builtB) ++ "\tmov %eax,%ecx\n"
             ++ StringPtr.content (handBack a builtA) ++ "\tsub %ecx,%eax\n")) ∧
      compileText handBack (fuel + 1) (.node .MULTIPLY name a b .null) =
          ((compile handBack fuel b).bind fun builtB =>
           (compile handBack fuel a).bind fun builtA =>
           .value (StringPtr.content (handBack b builtB) ++ "\tmov %eax,%ecx\n"
             ++ StringPtr.content (handBack a builtA) ++ "\timul %ecx,%eax\n"))) ∧
    compileText handBackNull 2 (.node .SUBTRACT "" (.node .CALL "a" .null .null .null)
        (.node .CALL "b" .null .null .null) .null)
      = .value ("\tmov %eax,%ecx\n" ++ "\tsub %ecx,%eax\n") ∧
    compileText handBackNull 2 (.node .MULTIPLY "" (.node .CALL "a" .null .null .null)
        (.node .CALL "b" .null .null .null) .null)
      = .value ("\tmov %eax,%ecx\n" ++ "\timul %ecx,%eax\n") := by
  refine ⟨fun handBack fuel name a b =>
    ⟨compileText_operator handBack fuel .SUBTRACT _ rfl name a b,
     compileText_operator handBack fuel .MULTIPLY _ rfl name a b⟩, by decide, by decide⟩

/-- C3: the code of the operands of a DIVIDE node does not reach its text: the
operand slots hold what the nested calls hand back, which is indeterminate.
For the calls of `a` and `b` as dividend and divisor, a build that reads the
null pointer gives the move, the zeroing of `%edx` and the `idiv` alone. -/
theorem compile_divide_operands_not_returned :
    (∀ (handBack : HandBack) (fuel : Nat) (name : String) (a b : Symbol),
      compileText handBack (fuel + 1) (.node .DIVIDE name a b .null) =
        (compile handBack fuel b).bind fun builtB =>
        (compile handBack fuel a).bind fun builtA =>
        .value (StringPtr.content (handBack b builtB) ++ "\tmov %eax,%ecx\n"
          ++ StringPtr.content (handBack a builtA)
          ++ ("\tmov $0,%edx\n" ++ "\tidiv %ecx\n"))) ∧
    compileText handBackNull 2 (.node .DIVIDE "" (.node .CALL "a" .null .null .null)
        (.node .CALL "b" .null .null .null) .null)
      = .value ("\tmov %eax,%ecx\n" ++ "\tmov $0,%edx\n" ++ "\tidiv %ecx\n") := by
  refine ⟨fun handBack fuel name a b =>
    compileText_operator handBack fuel .DIVIDE _ rfl name a b, by decide⟩

/-- C8: the code of the operand of a RETURN node does not reach its text: before
the epilogue stands what the nested call hands back, which is indeterminate.
For the call of `g` as operand, a build that reads the null pointer gives the
epilogue alone. -/
theorem compile_return_operand_not_returned :
    (∀ (handBack : HandBack) (fuel : Nat) (name : String) (lhs : Symbol)
        (t : SymbolType) (n : String) (l r x : Symbol),
      compileText handBack (fuel + 1) (.node .RETURN name lhs (.node t n l r x) .null) =
        (compile handBack fuel (.node t n l r x)).bind fun builtE =>
        .value (StringPtr.content (handBack (.node t n l r x) builtE)
          ++ "\tmov %ebp,%esp\n" ++ "\tpop %ebp\n" ++ "\tret\n")) ∧
    compileText handBackNull 1 (.node .CALL "g" .null .null .null) = .value "\tcall g\n" ∧
    compileText handBackNull 2 (.node .RETURN "" .null (.node .CALL "g" .null .null .null) .null)
      = .value ("\tmov %ebp,%esp\n" ++ "\tpop %ebp\n" ++ "\tret\n") := by
  refine ⟨?_, by decide, by decide⟩
  intro handBack fuel name lhs t n l r x
  simp only [compileText, compile_single, compileSwitch, nestedCall]
  cases compile handBack fuel (.node t n l r x) <;> simp

/-! ## The scratch register -/

/-- The instruction loop appends to `current` the texts of the sequences that
start at each node of the body, in list order. -/
theorem whileInstruction_content (recur : Symbol → Outcome StringPtr)
    (instruction : Symbol) (current : Fragment) :
    (whileInstruction recur instruction current).map Fragment.content =
      (concatText (instruction.tails.map fun s => (recur s).map StringPtr.content)).map
        (fun t => current.content ++ t) := by
  induction instruction generalizing current with
  | null => simp [whileInstruction, Symbol.tails, concatText]
  | node t n l r x _ _ ih =>
      simp only [whileInstruction, Symbol.tails, List.map_cons, concatText, Outcome.map_bind]
      cases recur (.node t n l r x) with
      | undefined => rfl
      | outOfFuel => rfl
      | value code =>
          simp only [Outcome.value_bind, Outcome.map_value]
          rw [ih]
          cases concatText (x.tails.map fun s => (recur s).map StringPtr.content) <;>
            simp [String.append_assoc]

/-- The text of a FUNCTION node without parameters, named within the bound of
the buffer: header, label, prologue, then what the calls on the sequences that
start at each node of the body hand back. -/
theorem compileText_function_body (handBack : HandBack) (fuel : Nat) (f : String)
    (h : f.utf8ByteSize ≤ 29) (body : Symbol) :
    compileText handBack (fuel + 1) (.node .FUNCTION f .null body .null) =
      (concatText (body.tails.map fun s =>
        (nestedCall handBack (compile handBack fuel) s).map StringPtr.content)).bind
        fun bodyText =>
      .value ("\t\n" ++ (f ++ ":\n") ++ "\tpush %ebp\n" ++ "\tmov %esp,%ebp\n" ++ bodyText) := by
  have hc := whileInstruction_content (nestedCall handBack (compile handBack fuel)) body
    (addString (addString (addString (addString (newString 0) (some (getString "\t\n")))
      (some (getString (f ++ ":\n")))) (some (getString "\tpush %ebp\n")))
      (some (getString "\tmov %esp,%ebp\n")))
  simp only [compileText, compile_single, compileSwitch, sprintf_label f h, whileParameter,
    Outcome.value_bind]
  have hm : ∀ x : Outcome Fragment,
      (x.map some).map StringPtr.content = x.map Fragment.content := by
    intro x; cases x <;> rfl
  rw [hm, hc]
  cases concatText (body.tails.map fun s =>
    (nestedCall handBack (compile handBack fuel) s).map StringPtr.content) <;> simp

/-- C5: the function `f` with the parameters `[p0, p1]` and the body
`[s0, s1]` of two RETURN nodes has no text at any budget, whatever the call
sites read: the run ends in undefined behaviour when the store of `p0` is
formatted. Without parameters, the text starts with the header line `"\t\n"`
before the label; the body slots hold what the calls on `[s0, s1]` and on
`[s1]` hand back: nothing in a build that reads the null pointer, three
epilogues (the code of `s1` twice) in a build that reads the fragments. -/
theorem compile_function_as_stated_fails :
    (¬ ∃ (handBack : HandBack) (fuel : Nat) (text : String),
      compileText handBack fuel (.node .FUNCTION "f"
        (.node .DECLARE "p0" .null .null (.node .DECLARE "p1" .null .null .null))
        (.node .RETURN "" .null .null (.node .RETURN "" .null .null .null)) .null)
        = .value text) ∧
    compileText handBackNull 2 (.node .FUNCTION "f"
        (.node .DECLARE "p0" .null .null (.node .DECLARE "p1" .null .null .null))
        (.node .RETURN "" .null .null (.node .RETURN "" .null .null .null)) .null)
      = .undefined ∧
    compileText handBackNull 2 (.node .FUNCTION "f" .null
        (.node .RETURN "" .null .null (.node .RETURN "" .null .null .null)) .null)
      = .value ("\t\n" ++ "f:\n" ++ "\tpush %ebp\n" ++ "\tmov %esp,%ebp\n") ∧
    compileText handBackAssembly 2 (.node .FUNCTION "f" .null
        (.node .RETURN "" .null .null (.node .RETURN "" .null .null .null)) .null)
      = .value ("\t\n" ++ "f:\n" ++ "\tpush %ebp\n" ++ "\tmov %esp,%ebp\n"
          ++ ("\tmov %ebp,%esp\n" ++ "\tpop %ebp\n" ++ "\tret\n")
          ++ ("\tmov %ebp,%esp\n" ++ "\tpop %ebp\n" ++ "\tret\n")
          ++ ("\tmov %ebp,%esp\n" ++ "\tpop %ebp\n" ++ "\tret\n")) := by
  refine ⟨?_, by decide, by decide, by decide⟩
  rintro ⟨handBack, fuel, text, h⟩
  obtain ⟨a, ha, _⟩ := Outcome.bind_eq_value h
  exact compile_function_params_ne_value _ _ _ _ _ _ _ _ _ _ _ ha

/-- C15: the last thing that a FUNCTION node emits is not the code of its last
body statement: for the function `f` without RETURN node whose body is the call
of `g`, which builds its call line, the text is header, label and prologue
followed by what the nested call hands back, which is indeterminate; a build
that reads the null pointer ends the text with the prologue. With the DECLARE
parameter `p0` and an empty body no parameter store ends the text: the run is
undefined. -/
theorem compile_function_last_statement_not_returned :
    (∀ handBack : HandBack,
      compileText handBack 2 (.node .FUNCTION "f" .null
        (.node .CALL "g" .null .null .null) .null)
      = .value ("\t\n" ++ "f:\n" ++ "\tpush %ebp\n" ++ "\tmov %esp,%ebp\n"
          ++ StringPtr.content
            (handBack (.node .CALL "g" .null .null .null) (some (getString "\tcall g\n"))))) ∧
    compileText handBackNull 1 (.node .CALL "g" .null .null .null) = .value "\tcall g\n" ∧
    compileText handBackNull 2 (.node .FUNCTION "f" .null
        (.node .CALL "g" .null .null .null) .null)
      = .value ("\t\n" ++ "f:\n" ++ "\tpush %ebp\n" ++ "\tmov %esp,%ebp\n") ∧
    (∀ handBack : HandBack,
      compileText handBack 2 (.node .FUNCTION "f"
        (.node .DECLARE "p0" .null .null .null) .null .null) = .undefined) := by
  refine ⟨?_, by decide, by decide,
    fun handBack => compile_function_declare_undefined handBack 0 "f" (by decide) _ _ _ _⟩
  intro handBack
  have hg : compile handBack 1 (.node .CALL "g" .null .null .null)
      = .value (some (getString "\tcall g\n")) := rfl
  rw [compileText_function_body handBack 1 "f" (by decide)]
  simp only [Symbol.tails, List.map_cons, List.map_nil, concatText, nestedCall, hg,
    Outcome.map_value, Outcome.value_bind]
  simp

/-- C18: the body part of a FUNCTION node is not the code of its statements:
for the function `f` whose body is the call of `g` followed by a RETURN, the
loop calls `compile` on `[s0, s1]` and on `[s1]`, which build the call line with
the epilogue and the epilogue, and appends what these calls hand back, which is
indeterminate; a build that reads the null pointer gives header, label and
prologue alone. With the placeholder parameter `p0` the run is undefined. -/
theorem compile_function_body_not_returned :
    (∀ handBack : HandBack,
      compileText handBack 2 (.node .FUNCTION "f" .null
        (.node .CALL "g" .null .null (.node .RETURN "" .null .null .null)) .null)
      = .value ("\t\n" ++ "f:\n" ++ "\tpush %ebp\n" ++ "\tmov %esp,%ebp\n"
          ++ StringPtr.content
            (handBack (.node .CALL "g" .null .null (.node .RETURN "" .null .null .null))
              (some ⟨["\tcall g\n", "\tmov %ebp,%esp\n", "\tpop %ebp\n", "\tret\n"]⟩))
          ++ StringPtr.content
            (handBack (.node .RETURN "" .null .null .null)
              (some ⟨["\tmov %ebp,%esp\n", "\tpop %ebp\n", "\tret\n"]⟩)))) ∧
    compileText handBackNull 2 (.node .FUNCTION "f" .null
        (.node .CALL "g" .null .null (.node .RETURN "" .null .null .null)) .null)
      = .value ("\t\n" ++ "f:\n" ++ "\tpush %ebp\n" ++ "\tmov %esp,%ebp\n") ∧
    (∀ handBack : HandBack,
      compileText handBack 2 (.node .FUNCTION "f" (.node .DECLARE "p0" .null .null .null)
        (.node .CALL "g" .null .null (.node .RETURN "" .null .null .null)) .null)
      = .undefined) := by
  refine ⟨?_, by decide,
    fun handBack => compile_function_declare_undefined handBack 0 "f" (by decide) _ _ _ _⟩
  intro handBack
  have h0 : compile handBack 1
      (.node .CALL "g" .null .null (.node .RETURN "" .null .null .null))
      = .value (some ⟨["\tcall g\n", "\tmov %ebp,%esp\n", "\tpop %ebp\n", "\tret\n"]⟩) := rfl
  have h1 : compile handBack 1 (.node .RETURN "" .null .null .null)
      = .value (some ⟨["\tmov %ebp,%esp\n", "\tpop %ebp\n", "\tret\n"]⟩) := rfl
  rw [compileText_function_body handBack 1 "f" (by decide)]
  simp only [Symbol.tails, List.map_cons, List.map_nil, concatText, nestedCall, h0, h1,
    Outcome.map_value, Outcome.value_bind]
  simp [String.append_assoc]

/-! ## Stability under a larger budget -/

theorem Outcome.bind_stable {α β : Type} {x y : Outcome α} {f g : α → Outcome β}
    (hx : x ≠ .outOfFuel → y = x) (hf : ∀ a, f a ≠ .outOfFuel → g a = f a)
    (h : x.bind f ≠ .outOfFuel) : y.bind g = x.bind f := by
  cases x with
  | outOfFuel => exact absurd rfl h
  | undefined => rw [hx (by simp)]; rfl
  | value a => rw [hx (by simp)]; exact hf a h

theorem whileParameter_stable {recur1 recur2 : Symbol → Outcome StringPtr}
    (he : Extends recur1 recur2) (parameter : Symbol) (index : Nat) (current : Fragment)
    (h : whileParameter recur1 parameter index current ≠ .outOfFuel) :
    whileParameter recur2 parameter index current =
      whileParameter recur1 parameter index current := by
  induction parameter generalizing index current with
  | null => rfl
  | node t n l r x _ _ ih =>
      simp only [whileParameter] at h ⊢
      refine Outcome.bind_stable (he _) (fun code hc => ?_) h
      exact Outcome.bind_stable (fun _ => rfl) (fun buffer hb => ih _ _ hb) hc

theorem whileInstruction_stable {recur1 recur2 : Symbol → Outcome StringPtr}
    (he : Extends recur1 recur2) (instruction : Symbol) (current : Fragment)
    (h : whileInstruction recur1 instruction current ≠ .outOfFuel) :
    whileInstruction recur2 instruction current =
      whileInstruction recur1 instruction current := by
  induction instruction generalizing current with
  | null => rfl
  | node t n l r x _ _ ih =>
      simp only [whileInstruction] at h ⊢
      exact Outcome.bind_stable (he _) (fun code hc => ih _ hc) h

theorem whileArgument_stable {recur1 recur2 : Symbol → Outcome StringPtr}
    (he : Extends recur1 recur2) (fuel1 fuel2 : Nat) (hle : fuel1 ≤ fuel2)
    (argument : Symbol) (current : Fragment)
    (h : whileArgument recur1 fuel1 argument current ≠ .outOfFuel) :
    whileArgument recur2 fuel2 argument current =
      whileArgument recur1 fuel1 argument current := by
  induction fuel1 generalizing fuel2 current with
  | zero =>
      cases argument with
      | null => cases fuel2 <;> rfl
      | node t n l r x => exact absurd rfl h
  | succ fuel1 ih =>
      cases argument with
      | null => cases fuel2 <;> rfl
      | node t n l r x =>
          obtain ⟨fuel2, rfl⟩ : ∃ k, fuel2 = k + 1 := ⟨fuel2 - 1, by omega⟩
          simp only [whileArgument] at h ⊢
          refine Outcome.bind_stable (he _) (fun arg ha => ?_) h
          cases arg with
          | none => rfl
          | some arg => exact ih fuel2 (by omega) _ ha

theorem compileSwitch_stable {recur1 recur2 : Symbol → Outcome StringPtr}
    (he : Extends recur1 recur2) (fuel1 fuel2 : Nat) (hle : fuel1 ≤ fuel2)
    (type : SymbolType) (name : String) (lhs rhs : Symbol)
    (h : compileSwitch recur1 fuel1 type name lhs rhs ≠ .outOfFuel) :
    compileSwitch recur2 fuel2 type name lhs rhs =
      compileSwitch recur1 fuel1 type name lhs rhs := by
  cases type <;> simp only [compileSwitch] at h ⊢
  case ADD | SUBTRACT | MULTIPLY | DIVIDE =>
    refine Outcome.bind_stable (he _) (fun r hr => ?_) h
    exact Outcome.bind_stable (he _) (fun _ _ => rfl) hr
  case FUNCTION =>
    refine Outcome.bind_stable (fun _ => rfl) (fun buffer hb => ?_) h
    refine Outcome.bind_stable (fun hp => whileParameter_stable he _ _ _ hp) (fun c hc => ?_) hb
    exact whileInstruction_stable he _ _ hc
  case CALL =>
    refine Outcome.bind_stable (fun ha => whileArgument_stable he _ _ hle _ _ ha)
      (fun _ _ => rfl) h
  case RETURN =>
    cases rhs with
    | null => rfl
    | node t n l r x => exact Outcome.bind_stable (he _) (fun _ _ => rfl) h

theorem whileSymbols_stable {recur1 recur2 : Symbol → Outcome StringPtr}
    (he : Extends recur1 recur2) (fuel1 fuel2 : Nat) (hle : fuel1 ≤ fuel2)
    (symbols : Symbol) (assembly : StringPtr)
    (h : whileSymbols recur1 fuel1 symbols assembly ≠ .outOfFuel) :
    whileSymbols recur2 fuel2 symbols assembly =
      whileSymbols recur1 fuel1 symbols assembly := by
  induction symbols generalizing assembly with
  | null => rfl
  | node t n l r x _ _ ih =>
      simp only [whileSymbols] at h ⊢
      refine Outcome.bind_stable (fun hs => compileSwitch_stable he _ _ hle _ _ _ _ hs)
        (fun current hc => ?_) h
      cases assembly with
      | none => exact ih _ hc
      | some a => exact ih _ hc

theorem nestedCall_extends (handBack : HandBack) {run1 run2 : Symbol → Outcome StringPtr}
    (h : Extends run1 run2) : Extends (nestedCall handBack run1) (nestedCall handBack run2) := by
  intro s hs
  have h1 : run1 s ≠ .outOfFuel := by
    intro hc
    apply hs
    simp only [nestedCall, hc, Outcome.map_outOfFuel]
  simp only [nestedCall, h s h1]

/-- A run of `compile` that finishes within a budget gives the same outcome
with every larger budget. -/
theorem compile_stable (handBack : HandBack) (fuel : Nat) :
    ∀ (extra : Nat) (symbols : Symbol), compile handBack fuel symbols ≠ .outOfFuel →
      compile handBack (fuel + extra) symbols = compile handBack fuel symbols := by
  have step : ∀ fuel, Extends (compile handBack fuel) (compile handBack (fuel + 1)) := by
    intro fuel
    induction fuel with
    | zero => intro s h; exact absurd rfl h
    | succ fuel ih =>
        intro s h
        simp only [compile] at h ⊢
        exact whileSymbols_stable (nestedCall_extends handBack ih) _ _ (by omega) _ _ h
  intro extra
  induction extra with
  | zero => intro s _; rfl
  | succ extra ih =>
      intro s h
      have h1 := ih s h
      rw [← Nat.add_assoc, step _ s (by rw [h1]; exact h), h1]

/-! ## Halting without CALL arguments -/

theorem Outcome.bind_ne_outOfFuel {α β : Type} {x : Outcome α} {f : α → Outcome β}
    (hx : x ≠ .outOfFuel) (hf : ∀ a, f a ≠ .outOfFuel) : x.bind f ≠ .outOfFuel := by
  cases x with
  | outOfFuel => exact absurd rfl hx
  | undefined => simp
  | value a => exact hf a

theorem sprintf_ne_outOfFuel (format : String) (args : List PrintfArg) :
    sprintf format args ≠ .outOfFuel := by
  unfold sprintf
  split
  · simp
  · split <;> simp

theorem whileParameter_halts (recur : Symbol → Outcome StringPtr) (parameter : Symbol)
    (h : ∀ s ∈ parameter.tails, recur s ≠ .outOfFuel) (index : Nat) (current : Fragment) :
    whileParameter recur parameter index current ≠ .outOfFuel := by
  induction parameter generalizing index current with
  | null => simp [whileParameter]
  | node t n l r x _ _ ih =>
      simp only [whileParameter]
      refine Outcome.bind_ne_outOfFuel (h _ (by simp [Symbol.tails])) (fun code => ?_)
      refine Outcome.bind_ne_outOfFuel (sprintf_ne_outOfFuel _ _) (fun buffer => ?_)
      exact ih (fun s hs => h s (by simp [Symbol.tails, hs])) _ _

theorem whileInstruction_halts (recur : Symbol → Outcome StringPtr) (instruction : Symbol)
    (h : ∀ s ∈ instruction.tails, recur s ≠ .outOfFuel) (current : Fragment) :
    whileInstruction recur instruction current ≠ .outOfFuel := by
  induction instruction generalizing current with
  | null => simp [whileInstruction]
  | node t n l r x _ _ ih =>
      simp only [whileInstruction]
      refine Outcome.bind_ne_outOfFuel (h _ (by simp [Symbol.tails])) (fun code => ?_)
      exact ih (fun s hs => h s (by simp [Symbol.tails, hs])) _

theorem compileSwitch_halts (recur : Symbol → Outcome StringPtr) (fuel : Nat)
    (type : SymbolType) (name : String) (lhs rhs : Symbol)
    (hcall : type = .CALL → rhs = .null)
    (hl : (lhs = .null → recur lhs ≠ .outOfFuel) ∧ ∀ s ∈ lhs.tails, recur s ≠ .outOfFuel)
    (hr : (rhs = .null → recur rhs ≠ .outOfFuel) ∧ ∀ s ∈ rhs.tails, recur s ≠ .outOfFuel) :
    compileSwitch recur fuel type name lhs rhs ≠ .outOfFuel := by
  have hlhs : recur lhs ≠ .outOfFuel := by
    cases lhs with
    | null => exact hl.1 rfl
    | node t n l r x => exact hl.2 _ (by simp [Symbol.tails])
  have hrhs : recur rhs ≠ .outOfFuel := by
    cases rhs with
    | null => exact hr.1 rfl
    | node t n l r x => exact hr.2 _ (by simp [Symbol.tails])
  cases type <;> simp only [compileSwitch]
  case VARIABLE | STRING | VALUE | TYPE | DECLARE | ASSIGN => simp
  case ADD | SUBTRACT | MULTIPLY | DIVIDE =>
    refine Outcome.bind_ne_outOfFuel hrhs (fun _ => ?_)
    exact Outcome.bind_ne_outOfFuel hlhs (fun _ => by simp)
  case FUNCTION =>
    refine Outcome.bind_ne_outOfFuel (sprintf_ne_outOfFuel _ _) (fun _ => ?_)
    refine Outcome.bind_ne_outOfFuel (whileParameter_halts _ _ hl.2 _ _) (fun _ => ?_)
    exact whileInstruction_halts _ _ hr.2 _
  case CALL =>
    rw [hcall rfl]
    cases fuel <;> simp only [whileArgument, Outcome.value_bind] <;>
      exact Outcome.bind_ne_outOfFuel (sprintf_ne_outOfFuel _ _) (fun _ => by simp)
  case RETURN =>
    cases rhs with
    | null => simp
    | node t n l r x => exact Outcome.bind_ne_outOfFuel hrhs (fun _ => by simp)

theorem whileSymbols_halts_of_none (recur : Symbol → Outcome StringPtr) (fuel : Nat)
    (symbols : Symbol) (assembly : StringPtr)
    (h : whileSymbols recur fuel symbols none ≠ .outOfFuel) :
    whileSymbols recur fuel symbols assembly ≠ .outOfFuel := by
  intro hc
  have := whileSymbols_content recur fuel symbols assembly
  rw [hc] at this
  cases hn : whileSymbols recur fuel symbols none with
  | outOfFuel => exact h hn
  | undefined => rw [hn] at this; cases this
  | value a => rw [hn] at this; cases this

theorem nestedCall_ne_outOfFuel (handBack : HandBack) {run : Symbol → Outcome StringPtr}
    {s : Symbol} (h : run s ≠ .outOfFuel) : nestedCall handBack run s ≠ .outOfFuel := by
  unfold nestedCall
  cases hr : run s with
  | outOfFuel => exact absurd hr h
  | undefined => simp
  | value a => simp

/-- On a tree in which no CALL node has an argument, `compile` finishes
within some budget (and with every larger one), on the sequence itself and on
each of the sequences starting at one of its nodes, whatever the call sites
read. -/
theorem compile_halts_without_arguments (handBack : HandBack) (symbols : Symbol)
    (h : symbols.noArguments = true) :
    ∃ bound, ∀ fuel, bound ≤ fuel →
      compile handBack fuel symbols ≠ .outOfFuel ∧
      ∀ s ∈ symbols.tails, compile handBack fuel s ≠ .outOfFuel := by
  induction symbols with
  | null =>
      refine ⟨1, fun fuel hf => ?_⟩
      obtain ⟨k, rfl⟩ : ∃ k, fuel = k + 1 := ⟨fuel - 1, by omega⟩
      exact ⟨by simp [compile, whileSymbols], by simp [Symbol.tails]⟩
  | node t n l r x ihl ihr ihx =>
      simp only [Symbol.noArguments, Bool.and_eq_true, decide_eq_true_eq] at h
      obtain ⟨⟨⟨hcall, hl⟩, hr⟩, hx⟩ := h
      obtain ⟨bl, hbl⟩ := ihl hl
      obtain ⟨br, hbr⟩ := ihr hr
      obtain ⟨bx, hbx⟩ := ihx hx
      refine ⟨max bl (max br bx) + 1, fun fuel hf => ?_⟩
      obtain ⟨k, rfl⟩ : ∃ k, fuel = k + 1 := ⟨fuel - 1, by omega⟩
      have hkl : bl ≤ k := by omega
      have hkr : br ≤ k := by omega
      have hkx : bx ≤ k + 1 := by omega
      have hnode : compile handBack (k + 1) (.node t n l r x) ≠ .outOfFuel := by
        simp only [compile, whileSymbols]
        refine Outcome.bind_ne_outOfFuel ?_ (fun current => ?_)
        · exact compileSwitch_halts _ _ _ _ _ _ hcall
            ⟨fun _ => nestedCall_ne_outOfFuel handBack (hbl k hkl).1,
              fun s hs => nestedCall_ne_outOfFuel handBack ((hbl k hkl).2 s hs)⟩
            ⟨fun _ => nestedCall_ne_outOfFuel handBack (hbr k hkr).1,
              fun s hs => nestedCall_ne_outOfFuel handBack ((hbr k hkr).2 s hs)⟩
        · have hx1 := (hbx (k + 1) hkx).1
          simp only [compile] at hx1
          exact whileSymbols_halts_of_none _ _ _ _ hx1
      refine ⟨hnode, fun s hs => ?_⟩
      simp only [Symbol.tails, List.mem_cons] at hs
      rcases hs with rfl | hs
      · exact hnode
      · exact (hbx (k + 1) hkx).2 s hs

end MCC
